import Mathlib

/-!
Verification of the `python-genetic` repository against its specification.

The development shallowly embeds the two source files:

* `src/genetic/gene_pool.py` — class `gene_pool` ("AlleleIndex"): two parallel
  sequences `alleles` / `alleles_indexes` and numpy boolean-mask selection on
  them.  Python/numpy sequences are modelled as Lean `List`s; the float
  positions are modelled as `ℚ` (only order comparisons are performed on them);
  boolean-mask selection (`arr[selector]`) is modelled by `maskSelect`.
* `src/genetic/evolve.py` — class `Evolve`: gene-pool dictionary, population and
  all-time-best archive.  Python dicts are modelled as association lists, the
  externally supplied `Evolvable` candidate is modelled by its gene→allele
  mapping together with caller-supplied functions for `fitness_level`,
  `unique` and `can_survive` (the spec lists these as external collaborators).
  The standard-library pseudo-random source is an external collaborator as
  well; every individual draw is taken from an oracle `o : Nat → Nat` indexed
  by a running draw counter, and each unbounded `while True:` retry loop is
  given explicit fuel, returning `none` when the fuel runs out (the code can
  genuinely loop forever, which the spec documents).
-/

/-- Boolean-mask selection `arr[selector]` of numpy: keep the entries of `l`
whose corresponding entry of `mask` is `true` (the two lists are in lockstep;
numpy also requires them to have the same length). -/
def maskSelect {α : Type} (l : List α) (mask : List Bool) : List α :=
  ((l.zip mask).filter (fun p => p.2)).map (fun p => p.1)

/-- The AlleleIndex of `gene_pool.py`: the parallel private fields
`__alleles` and `__alleles_indexes`. -/
structure gene_pool (A : Type) where
  alleles : List A
  alleles_indexes : List ℚ
deriving DecidableEq

/-- `gene_pool.__gene_selector(start, stop)`: the boolean mask
`(indexes >= start) & (indexes <= stop)` (inclusive on both ends). -/
def gene_pool.gene_selector {A : Type} (g : gene_pool A) (start stop : ℚ) : List Bool :=
  g.alleles_indexes.map (fun x => decide (start ≤ x) && decide (x ≤ stop))

/-- `gene_pool.get_genes_outside_range(start, stop)`: masked selection with the
negated selector, on both parallel sequences (both through the ndarray
properties in the source, so no storage slip here). -/
def gene_pool.get_genes_outside_range {A : Type} (g : gene_pool A) (start stop : ℚ) :
    List A × List ℚ :=
  (maskSelect g.alleles ((g.gene_selector start stop).map not),
   maskSelect g.alleles_indexes ((g.gene_selector start stop).map not))

/-- `gene_pool.add_allele(allele, index)` with the position given (the
`index=None` case draws the position from the PRNG; callers below always pass
the drawn value explicitly). -/
def gene_pool.add_allele {A : Type} (g : gene_pool A) (allele : A) (index : ℚ) : gene_pool A :=
  { alleles := g.alleles ++ [allele], alleles_indexes := g.alleles_indexes ++ [index] }

/-- The `gene_pool.__init__(alleles, indexes)` constructor with `indexes`
given: `zip` the two sequences and `add_allele` each pair in order. -/
def gene_pool.init {A : Type} (alleles : List A) (indexes : List ℚ) : gene_pool A :=
  (alleles.zip indexes).foldl (fun g p => g.add_allele p.1 p.2) ⟨[], []⟩

/-- `gene_pool.copy()`: rebuild a fresh instance from the current contents via
the constructor. -/
def gene_pool.copy {A : Type} (g : gene_pool A) : gene_pool A :=
  gene_pool.init g.alleles g.alleles_indexes

/-- `gene_pool.remove_slice(start, stop)`: keep only the entries whose position
falls outside the closed range (the dataflow of lines 50-52; the raw-list
storage slip of line 52 is modelled separately by `gene_pool.remove_slice_run`). -/
def gene_pool.remove_slice {A : Type} (g : gene_pool A) (start stop : ℚ) : gene_pool A :=
  ⟨maskSelect g.alleles ((g.gene_selector start stop).map not),
   maskSelect g.alleles_indexes ((g.gene_selector start stop).map not)⟩

/-- Conversion of a numpy boolean array to a scalar Python index, as invoked
when such an array is used to index a plain Python *list*: `list.__getitem__`
goes through `__index__`, which is only defined for size-one arrays (any other
size raises `TypeError`, modelled as `none`); a size-one array converts to the
integer value of its single element. -/
def mask_scalar_index (mask : List Bool) : Option Nat :=
  match mask with
  | [b] => some (if b then 1 else 0)
  | _ => none

/-- `gene_pool.__getslice__(i, j)` as it actually executes on an instance built
by the constructor: `self.alleles[selector]` uses the ndarray property, but
`self.__alleles_indexes[selector]` (line 40) indexes the raw Python list with
the ndarray mask, which raises `TypeError` unless the mask has size one (and
`IndexError` when the converted scalar is out of bounds).  `none` models the
raise; on the non-raising size-one path the second component is the scalar the
list indexing yields. -/
def gene_pool.getslice_run {A : Type} (g : gene_pool A) (i j : ℚ) : Option (List A × ℚ) :=
  match mask_scalar_index (g.gene_selector i j) with
  | none => none
  | some k => (g.alleles_indexes.get? k).map
      (fun x => (maskSelect g.alleles (g.gene_selector i j), x))

/-- `gene_pool.remove_slice(start, stop)` as it actually executes on an
instance built by the constructor: line 51 (`self.alleles[selector]`) succeeds
through the ndarray property, but line 52 indexes the raw Python list
`self.__alleles_indexes` with the negated ndarray mask, raising exactly as in
`gene_pool.getslice_run`.  `none` models the raise; the non-raising size-one
path yields the new field contents (an allele array and the scalar that the
list indexing produced). -/
def gene_pool.remove_slice_run {A : Type} (g : gene_pool A) (start stop : ℚ) :
    Option (List A × ℚ) :=
  match mask_scalar_index ((g.gene_selector start stop).map not) with
  | none => none
  | some k => (g.alleles_indexes.get? k).map
      (fun x => (maskSelect g.alleles ((g.gene_selector start stop).map not), x))

/-- A tiny heap of `gene_pool` instances, to speak about aliasing: a reference
is an index into the heap. -/
def gene_pool.heap_copy {A : Type} (h : List (gene_pool A)) (r : Nat) :
    List (gene_pool A) × Nat :=
  (h ++ [(h.getD r ⟨[], []⟩).copy], h.length)

/-- `remove_slice` performed through a reference: the referenced cell is
replaced by the updated instance, all other cells are untouched. -/
def gene_pool.heap_remove_slice {A : Type} (h : List (gene_pool A)) (r : Nat)
    (start stop : ℚ) : List (gene_pool A) :=
  h.set r ((h.getD r ⟨[], []⟩).remove_slice start stop)

/-! ### Helper lemmas for `gene_pool` -/

theorem gene_pool.init_fold {A : Type} :
    ∀ (al : List A) (idx : List ℚ) (g : gene_pool A), al.length = idx.length →
      (al.zip idx).foldl (fun g p => g.add_allele p.1 p.2) g =
        ⟨g.alleles ++ al, g.alleles_indexes ++ idx⟩
  | [], [], g, _ => by simp
  | [], _ :: _, _, h => by simp at h
  | _ :: _, [], _, h => by simp at h
  | x :: al, y :: idx, g, h => by
    have hlen : al.length = idx.length := by simpa using h
    simp only [List.zip_cons_cons, List.foldl_cons]
    rw [gene_pool.init_fold al idx (g.add_allele x y) hlen]
    simp [gene_pool.add_allele]

/-- Rebuilding a `gene_pool` from its own (equal-length) contents gives back the
same contents: the constructor zips the two sequences and appends each pair. -/
theorem gene_pool.copy_eq {A : Type} (g : gene_pool A)
    (hlen : g.alleles.length = g.alleles_indexes.length) : g.copy = g := by
  unfold gene_pool.copy gene_pool.init
  rw [gene_pool.init_fold g.alleles g.alleles_indexes ⟨[], []⟩ hlen]
  simp

theorem list_getD_append_left {α : Type} (h l : List α) (r : Nat) (d : α)
    (hr : r < h.length) : (h ++ l).getD r d = h.getD r d := by
  unfold List.getD
  rw [List.get?_append hr]

theorem list_getD_concat_length {α : Type} (h : List α) (x d : α) :
    (h ++ [x]).getD h.length d = x := by
  unfold List.getD
  rw [List.get?_eq_getElem?, List.getElem?_append_right (le_refl _)]
  simp

theorem list_getD_set_ne {α : Type} (l : List α) (i j : Nat) (v d : α) (hij : i ≠ j) :
    (l.set i v).getD j d = l.getD j d := by
  unfold List.getD
  rw [List.get?_set_ne _ _ hij]

/-- C4: the claim says the entries returned by the range query `[a:b]`
together with those of `get_genes_outside_range(a, b)` form exactly the
original index's multiset of (allele, position) pairs, for all `a ≤ b`.  The
program cannot exhibit that partition: on a freshly constructed two-entry pool
with bounds `0 ≤ 1/4`, the range query raises `TypeError` before returning any
inside entries — its positions component (line 40) indexes the raw Python list
`self.__alleles_indexes` with the size-two ndarray mask, so the executed query
(`gene_pool.getslice_run`) evaluates to `none` — while
`get_genes_outside_range` returns only its outside half, the single pair
`(2, 1/2)`, which alone does not reproduce the two-pair contents. -/
theorem getslice_outside_partition_raises :
    gene_pool.getslice_run (⟨[1, 2], [0, 1/2]⟩ : gene_pool ℕ) 0 (1/4) = none
    ∧ gene_pool.get_genes_outside_range (⟨[1, 2], [0, 1/2]⟩ : gene_pool ℕ) 0 (1/4)
        = ([2], [1/2]) := by
  constructor
  · rfl
  · norm_num [gene_pool.get_genes_outside_range, gene_pool.gene_selector, maskSelect]

/-- C7: the claim says the range query and `get_genes_outside_range` never
raise.  The range query as implemented does raise: on a freshly constructed
two-entry pool, `__getslice__`'s second component indexes the raw Python list
`self.__alleles_indexes` with a size-two ndarray mask, a `TypeError`
(`gene_pool.getslice_run` evaluates to `none` on the failing input). -/
theorem getslice_run_raises :
    gene_pool.getslice_run (⟨[1, 2], [0, 1/2]⟩ : gene_pool ℕ) 0 1 = none := by
  rfl

/-- C8: the claim says `remove_slice(start, stop)` drops exactly the inside
entries and keeps the rest aligned.  As implemented it raises instead: on a
freshly constructed two-entry pool, line 52 indexes the raw Python list
`self.__alleles_indexes` with a size-two ndarray mask, a `TypeError`
(`gene_pool.remove_slice_run` evaluates to `none` on the failing input). -/
theorem remove_slice_run_raises :
    gene_pool.remove_slice_run (⟨[1, 2], [0, 1/2]⟩ : gene_pool ℕ) 0 1 = none := by
  rfl

/-- C6: `copy()` returns an index with the same (allele, position) content, and
removal through either reference leaves the other reference's contents
unchanged: on a heap of instances, `heap_copy` allocates a fresh cell whose
content equals the original cell's, and `heap_remove_slice` on either of the
two references (with any bounds) does not change what the other reference
dereferences to. -/
theorem copy_independent {A : Type} (h : List (gene_pool A)) (r : Nat)
    (hr : r < h.length)
    (hwf : (h.getD r ⟨[], []⟩).alleles.length
      = (h.getD r ⟨[], []⟩).alleles_indexes.length) :
    (gene_pool.heap_copy h r).1.getD (gene_pool.heap_copy h r).2 ⟨[], []⟩ = h.getD r ⟨[], []⟩
    ∧ (∀ a b : ℚ,
        (gene_pool.heap_remove_slice (gene_pool.heap_copy h r).1
            (gene_pool.heap_copy h r).2 a b).getD r ⟨[], []⟩ = h.getD r ⟨[], []⟩)
    ∧ (∀ a b : ℚ,
        (gene_pool.heap_remove_slice (gene_pool.heap_copy h r).1 r a b).getD
            (gene_pool.heap_copy h r).2 ⟨[], []⟩
          = (gene_pool.heap_copy h r).1.getD (gene_pool.heap_copy h r).2 ⟨[], []⟩) := by
  have hne : r ≠ h.length := Nat.ne_of_lt hr
  unfold gene_pool.heap_copy gene_pool.heap_remove_slice
  refine ⟨?_, ?_, ?_⟩
  · rw [list_getD_concat_length]
    exact gene_pool.copy_eq _ hwf
  · intro a b
    rw [list_getD_set_ne _ _ _ _ _ (Ne.symm hne)]
    exact list_getD_append_left h _ r _ hr
  · intro a b
    rw [list_getD_set_ne _ _ _ _ _ hne]

/-- The one-cell heap used to witness `copy_independent`. -/
def heap0 : List (gene_pool ℕ) := [⟨[1], [0]⟩]

theorem copy_independent_witness :
    (0 < heap0.length
      ∧ (heap0.getD 0 ⟨[], []⟩).alleles.length
          = (heap0.getD 0 ⟨[], []⟩).alleles_indexes.length)
    ∧ ((gene_pool.heap_copy heap0 0).1.getD (gene_pool.heap_copy heap0 0).2 ⟨[], []⟩
          = heap0.getD 0 ⟨[], []⟩
        ∧ (∀ a b : ℚ,
            (gene_pool.heap_remove_slice (gene_pool.heap_copy heap0 0).1
                (gene_pool.heap_copy heap0 0).2 a b).getD 0 ⟨[], []⟩ = heap0.getD 0 ⟨[], []⟩)
        ∧ (∀ a b : ℚ,
            (gene_pool.heap_remove_slice (gene_pool.heap_copy heap0 0).1 0 a b).getD
                (gene_pool.heap_copy heap0 0).2 ⟨[], []⟩
              = (gene_pool.heap_copy heap0 0).1.getD (gene_pool.heap_copy heap0 0).2 ⟨[], []⟩)) :=
  ⟨⟨by decide, rfl⟩, copy_independent heap0 0 (by decide) rfl⟩

/-! ### `evolve.py`: Python dictionaries as association lists -/

/-- Python `d[g]` / `d.get(g)` lookup on a gene→allele dictionary. -/
def dictGet {G A : Type} [DecidableEq G] : List (G × A) → G → Option A
  | [], _ => none
  | p :: rest, g => if p.1 = g then some p.2 else dictGet rest g

/-- Python `d[g] = a` dictionary assignment: overwrite the entry of key `g` if
present, otherwise add a new entry. -/
def dictSet {G A : Type} [DecidableEq G] : List (G × A) → G → A → List (G × A)
  | [], g, a => [(g, a)]
  | p :: rest, g, a => if p.1 = g then (g, a) :: rest else p :: dictSet rest g a

/-- Python `d.values()`. -/
def dictValues {G A : Type} (d : List (G × A)) : List A := d.map Prod.snd

/-- Python `d.keys()`. -/
def dictKeys {G A : Type} (d : List (G × A)) : List G := d.map Prod.fst

/-- `random.choice(l)` given the oracle's draw `n`: a uniform draw is any index
below `l.length` (realised here as `n % l.length`); on an empty sequence
`random.choice` raises `IndexError`, modelled as `none`. -/
def pychoice {α : Type} (l : List α) (n : Nat) : Option α := l.get? (n % l.length)

/-! ### `Evolve.set_best` (C3) -/

/-- The deduplication loop of `Evolve.set_best`: walk `values`, keep a value
only if its `unique()` key has not been seen yet, remembering seen keys. -/
def dedup_unique {α : Type} (unique : α → Nat) : List Nat → List α → List α
  | _, [] => []
  | seen, v :: vs =>
    if unique v ∈ seen then dedup_unique unique seen vs
    else v :: dedup_unique unique (unique v :: seen) vs

/-- `Evolve.set_best(n_best)`: dedup `self.best + self.population` by
uniqueness key (first occurrence wins), sort by `fitness_level()` descending
(Python's `sorted` with `reverse=True` is a stable descending sort, realised by
`insertionSort` with the reflexive order "fitness of the left is at least the
fitness of the right"), and truncate to the first `n_best`. -/
def set_best {α : Type} (fitness_level : α → Int) (unique : α → Nat)
    (best population : List α) (n_best : Nat) : List α :=
  (List.insertionSort (fun x y => fitness_level y ≤ fitness_level x)
    (dedup_unique unique [] (best ++ population))).take n_best

theorem dedup_unique_sound {α : Type} (unique : α → Nat) :
    ∀ (seen : List Nat) (l : List α) (v : α), v ∈ dedup_unique unique seen l →
      unique v ∉ seen ∧ l.find? (fun w => unique w == unique v) = some v
  | _, [], _, hv => by simp [dedup_unique] at hv
  | seen, w :: l, v, hv => by
    by_cases hw : unique w ∈ seen
    · simp only [dedup_unique, if_pos hw] at hv
      obtain ⟨hns, hfind⟩ := dedup_unique_sound unique seen l v hv
      refine ⟨hns, ?_⟩
      have hne : (unique w == unique v) = false := by
        simp only [beq_eq_false_iff_ne, ne_eq]
        intro hcontra
        exact hns (hcontra ▸ hw)
      rw [List.find?_cons_of_neg _ (by simp [hne]), hfind]
    · simp only [dedup_unique, if_neg hw] at hv
      rcases List.mem_cons.mp hv with hv1 | hv1
      · subst hv1
        exact ⟨hw, by rw [List.find?_cons_of_pos _ (by simp)]⟩
      · obtain ⟨hns, hfind⟩ := dedup_unique_sound unique (unique w :: seen) l v hv1
        have hvw : unique v ≠ unique w := by
          intro hcontra
          exact hns (by simp [hcontra])
        refine ⟨fun hcontra => hns (by simp [hcontra]), ?_⟩
        rw [List.find?_cons_of_neg _ (by simp only [beq_iff_eq]; exact Ne.symm hvw), hfind]

theorem dedup_unique_nodup {α : Type} (unique : α → Nat) :
    ∀ (seen : List Nat) (l : List α),
      ((dedup_unique unique seen l).map unique).Nodup
  | _, [] => by simp [dedup_unique]
  | seen, w :: l => by
    by_cases hw : unique w ∈ seen
    · simpa only [dedup_unique, if_pos hw] using dedup_unique_nodup unique seen l
    · simp only [dedup_unique, if_neg hw, List.map_cons, List.nodup_cons]
      constructor
      · intro hcontra
        obtain ⟨v, hv, huv⟩ := List.mem_map.mp hcontra
        have := (dedup_unique_sound unique (unique w :: seen) l v hv).1
        exact this (by simp [huv])
      · exact dedup_unique_nodup unique (unique w :: seen) l

/-- C3 counterexample: with two candidates of equal fitness but distinct
uniqueness keys, the archive produced by `set_best` keeps both, so its entries
are *not* in strictly fitness-descending order (the claim's strictness fails;
Python's `sorted(..., reverse=True)` only guarantees a non-increasing order). -/
theorem set_best_not_strict_counterexample :
    ¬ List.Sorted (fun x y : ℕ => (fun _ : ℕ => (0 : Int)) y < (fun _ : ℕ => (0 : Int)) x)
      (set_best (fun _ : ℕ => (0 : Int)) (fun n : ℕ => n) [] [0, 1] 5) := by
  decide

/-- C3 (amended): after every `set_best(n_best)`, for any prior archive and
population, the archive has at most `n_best` entries, its entries are in
non-increasing (weakly descending) fitness order, and no two entries share a
uniqueness key; deduplication keeps the first occurrence of each key in
`best ++ population`, so archive entries take priority over population
entries. -/
theorem set_best_spec {α : Type} (fitness_level : α → Int) (unique : α → Nat)
    (best population : List α) (n_best : Nat) :
    (set_best fitness_level unique best population n_best).length ≤ n_best
    ∧ List.Sorted (fun x y => fitness_level y ≤ fitness_level x)
        (set_best fitness_level unique best population n_best)
    ∧ ((set_best fitness_level unique best population n_best).map unique).Nodup
    ∧ ∀ v ∈ set_best fitness_level unique best population n_best,
        (best ++ population).find? (fun w => unique w == unique v) = some v := by
  have htot : IsTotal α (fun x y => fitness_level y ≤ fitness_level x) :=
    ⟨fun a b => le_total (fitness_level b) (fitness_level a)⟩
  have htrans : IsTrans α (fun x y => fitness_level y ≤ fitness_level x) :=
    ⟨fun _ _ _ hab hbc => le_trans hbc hab⟩
  have hsorted : List.Sorted (fun x y => fitness_level y ≤ fitness_level x)
      (List.insertionSort (fun x y => fitness_level y ≤ fitness_level x)
        (dedup_unique unique [] (best ++ population))) :=
    @List.sorted_insertionSort α _ _ htot htrans _
  have hperm := List.perm_insertionSort (fun x y => fitness_level y ≤ fitness_level x)
    (dedup_unique unique [] (best ++ population))
  refine ⟨List.length_take_le _ _, ?_, ?_, ?_⟩
  · exact hsorted.sublist (List.take_sublist _ _)
  · have hnd : ((List.insertionSort (fun x y => fitness_level y ≤ fitness_level x)
        (dedup_unique unique [] (best ++ population))).map unique).Nodup :=
      ((hperm.map unique).nodup_iff).mpr (dedup_unique_nodup unique [] _)
    exact hnd.sublist ((List.take_sublist _ _).map unique)
  · intro v hv
    have hv2 : v ∈ dedup_unique unique [] (best ++ population) :=
      hperm.mem_iff.mp (List.mem_of_mem_take hv)
    exact (dedup_unique_sound unique [] (best ++ population) v hv2).2

/-! ### `Evolve.generate_random_parent` (C2) -/

/-- The inner `while True:` loop of `generate_random_parent` for one gene:
repeatedly `random.choice` an allele from this gene's list until the allele is
not already among the candidate's current values, then assign it to the gene.
One draw is consumed per attempt (`k` is the running draw counter). -/
def assign_gene {G A : Type} [DecidableEq G] [DecidableEq A] (o : Nat → Nat)
    (al : List A) (g : G) : Nat → Nat → List (G × A) → Option (List (G × A) × Nat)
  | 0, _, _ => none
  | fuel + 1, k, genes =>
    match pychoice al (o k) with
    | none => none
    | some a =>
      if a ∈ dictValues genes then assign_gene o al g fuel (k + 1) genes
      else some (dictSet genes g a, k + 1)

/-- The `for gene, allele in self.gene_pool.iteritems():` loop: assign every
gene of the pool in turn. -/
def assign_all {G A : Type} [DecidableEq G] [DecidableEq A] (o : Nat → Nat) :
    List (G × List A) → Nat → Nat → List (G × A) → Option (List (G × A) × Nat)
  | [], _, k, genes => some (genes, k)
  | (g, al) :: rest, fuel, k, genes =>
    match assign_gene o al g fuel k genes with
    | none => none
    | some (genes1, k1) => assign_all o rest fuel k1 genes1

/-- `Evolve.generate_random_parent()`: starting from the candidate the external
`Evolvable` constructor returns for the pool's gene names (its mapping holds no
alleles yet, modelled as the empty mapping at the first call), repeat the
assign-every-gene pass until `can_survive()` holds, keeping the partially
filled mapping between passes exactly as the source keeps the same `parent`
object alive across iterations of its outer `while True:` loop. -/
def generate_random_parent {G A : Type} [DecidableEq G] [DecidableEq A]
    (cs : List (G × A) → Bool) (pool : List (G × List A)) (o : Nat → Nat) :
    Nat → Nat → List (G × A) → Option (List (G × A) × Nat)
  | 0, _, _ => none
  | fuel + 1, k, genes =>
    match assign_all o pool fuel k genes with
    | none => none
    | some (genes1, k1) =>
      if cs genes1 then some (genes1, k1)
      else generate_random_parent cs pool o fuel k1 genes1

/-! ### Dictionary lemmas -/

theorem dictKeys_dictSet {G A : Type} [DecidableEq G] :
    ∀ (d : List (G × A)) (g : G) (a : A),
      dictKeys (dictSet d g a) =
        if g ∈ dictKeys d then dictKeys d else dictKeys d ++ [g]
  | [], g, a => by simp [dictSet, dictKeys]
  | p :: d, g, a => by
    by_cases hp : p.1 = g
    · subst hp
      simp [dictSet, dictKeys]
    · have hrec := dictKeys_dictSet d g a
      simp only [dictSet, if_neg hp, dictKeys, List.map_cons] at hrec ⊢
      by_cases hg : g ∈ List.map Prod.fst d
      · rw [hrec, if_pos hg, if_pos (List.mem_cons_of_mem _ hg)]
      · have hgc : g ∉ p.1 :: List.map Prod.fst d := by
          intro hc
          rcases List.mem_cons.mp hc with h | h
          · exact hp h.symm
          · exact hg h
        rw [hrec, if_neg hg, if_neg hgc]
        simp

theorem dictGet_dictSet_self {G A : Type} [DecidableEq G] :
    ∀ (d : List (G × A)) (g : G) (a : A), dictGet (dictSet d g a) g = some a
  | [], g, a => by simp [dictSet, dictGet]
  | p :: d, g, a => by
    by_cases hp : p.1 = g
    · simp [dictSet, hp, dictGet]
    · simp [dictSet, hp, dictGet, dictGet_dictSet_self d g a]

theorem dictGet_dictSet_ne {G A : Type} [DecidableEq G] :
    ∀ (d : List (G × A)) (g g2 : G) (a : A), g2 ≠ g →
      dictGet (dictSet d g a) g2 = dictGet d g2
  | [], g, g2, a, hne => by simp [dictSet, dictGet, Ne.symm hne]
  | p :: d, g, g2, a, hne => by
    by_cases hp : p.1 = g
    · subst hp
      simp [dictSet, dictGet, Ne.symm hne]
    · by_cases hp2 : p.1 = g2
      · simp [dictSet, hp, dictGet, hp2, hne]
      · simp [dictSet, hp, dictGet, hp2, dictGet_dictSet_ne d g g2 a hne]

theorem dictValues_cons {G A : Type} (p : G × A) (d : List (G × A)) :
    dictValues (p :: d) = p.2 :: dictValues d := rfl

theorem dictValues_dictSet_subset {G A : Type} [DecidableEq G] :
    ∀ (d : List (G × A)) (g : G) (a : A),
      dictValues (dictSet d g a) ⊆ a :: dictValues d
  | [], g, a => by
    intro x hx
    simpa [dictSet, dictValues] using hx
  | p :: d, g, a => by
    intro x hx
    by_cases hp : p.1 = g
    · have hset : dictSet (p :: d) g a = (g, a) :: d := by simp [dictSet, hp]
      rw [hset, dictValues_cons] at hx
      rw [dictValues_cons]
      rcases List.mem_cons.mp hx with h | h
      · exact List.mem_cons.mpr (Or.inl h)
      · exact List.mem_cons_of_mem _ (List.mem_cons_of_mem _ h)
    · have hset : dictSet (p :: d) g a = p :: dictSet d g a := by simp [dictSet, hp]
      rw [hset, dictValues_cons] at hx
      rw [dictValues_cons]
      rcases List.mem_cons.mp hx with h | h
      · exact List.mem_cons_of_mem _ (List.mem_cons.mpr (Or.inl h))
      · rcases List.mem_cons.mp (dictValues_dictSet_subset d g a h) with h2 | h2
        · exact List.mem_cons.mpr (Or.inl h2)
        · exact List.mem_cons_of_mem _ (List.mem_cons_of_mem _ h2)

theorem dictValues_nodup_dictSet {G A : Type} [DecidableEq G] [DecidableEq A] :
    ∀ (d : List (G × A)) (g : G) (a : A), (dictValues d).Nodup →
      a ∉ dictValues d → (dictValues (dictSet d g a)).Nodup
  | [], g, a, _, _ => by simp [dictSet, dictValues]
  | p :: d, g, a, hnd, ha => by
    simp only [dictValues, List.map_cons, List.nodup_cons] at hnd
    have hamem : a ≠ p.2 ∧ a ∉ dictValues d := by
      constructor
      · intro hc
        exact ha (by simp [dictValues, hc])
      · intro hc
        exact ha (by simp only [dictValues, List.map_cons, List.mem_cons]; exact Or.inr hc)
    by_cases hp : p.1 = g
    · simp only [dictSet, if_pos hp, dictValues, List.map_cons, List.nodup_cons]
      exact ⟨hamem.2, hnd.2⟩
    · simp only [dictSet, if_neg hp, dictValues, List.map_cons, List.nodup_cons]
      constructor
      · intro hc
        rcases List.mem_cons.mp (dictValues_dictSet_subset d g a hc) with h2 | h2
        · exact hamem.1 h2.symm
        · exact hnd.1 h2
      · exact dictValues_nodup_dictSet d g a hnd.2 hamem.2

theorem dictKeys_nodup_dictSet {G A : Type} [DecidableEq G] (d : List (G × A)) (g : G) (a : A)
    (h : (dictKeys d).Nodup) : (dictKeys (dictSet d g a)).Nodup := by
  rw [dictKeys_dictSet]
  by_cases hg : g ∈ dictKeys d
  · rw [if_pos hg]
    exact h
  · rw [if_neg hg]
    simp [List.nodup_append, h, hg]

theorem dictGet_isSome_dictSet {G A : Type} [DecidableEq G] (d : List (G × A)) (g g2 : G)
    (a : A) (h : (dictGet d g2).isSome) : (dictGet (dictSet d g a) g2).isSome := by
  by_cases hgg : g2 = g
  · subst hgg
    rw [dictGet_dictSet_self]
    rfl
  · rw [dictGet_dictSet_ne d g g2 a hgg]
    exact h

/-- A successful inner-loop run assigns its gene a value that was fresh at the
moment of assignment. -/
theorem assign_gene_spec {G A : Type} [DecidableEq G] [DecidableEq A] (o : Nat → Nat)
    (al : List A) (g : G) :
    ∀ (fuel k : Nat) (genes genes2 : List (G × A)) (k2 : Nat),
      assign_gene o al g fuel k genes = some (genes2, k2) →
      ∃ a, a ∉ dictValues genes ∧ genes2 = dictSet genes g a
  | 0, _, _, _, _, h => by simp [assign_gene] at h
  | fuel + 1, k, genes, genes2, k2, h => by
    rw [assign_gene] at h
    split at h
    · exact absurd h (by simp)
    · rename_i a hc
      by_cases hmem : a ∈ dictValues genes
      · rw [if_pos hmem] at h
        exact assign_gene_spec o al g fuel (k + 1) genes genes2 k2 h
      · rw [if_neg hmem] at h
        injection h with h1
        injection h1 with h2 h3
        exact ⟨a, hmem, h2.symm⟩

/-- A successful assign-every-gene pass preserves key and value uniqueness,
never un-defines a gene, and leaves every gene of the processed list defined. -/
theorem assign_all_spec {G A : Type} [DecidableEq G] [DecidableEq A] (o : Nat → Nat) :
    ∀ (plist : List (G × List A)) (fuel k : Nat) (genes genes2 : List (G × A)) (k2 : Nat),
      assign_all o plist fuel k genes = some (genes2, k2) →
      ((dictKeys genes).Nodup → (dictKeys genes2).Nodup)
      ∧ ((dictValues genes).Nodup → (dictValues genes2).Nodup)
      ∧ (∀ g2, (dictGet genes g2).isSome → (dictGet genes2 g2).isSome)
      ∧ (∀ p ∈ plist, (dictGet genes2 p.1).isSome)
  | [], fuel, k, genes, genes2, k2, h => by
    rw [assign_all] at h
    injection h with h1
    injection h1 with h2 h3
    subst h2
    exact ⟨id, id, fun _ => id, by simp⟩
  | (g, al) :: rest, fuel, k, genes, genes2, k2, h => by
    rw [assign_all] at h
    split at h
    · exact absurd h (by simp)
    · rename_i genes1 k1 hga
      obtain ⟨a, hfresh, hset⟩ := assign_gene_spec o al g fuel k genes genes1 k1 hga
      obtain ⟨ihk, ihv, ihmono, ihall⟩ :=
        assign_all_spec o rest fuel k1 genes1 genes2 k2 h
      refine ⟨?_, ?_, ?_, ?_⟩
      · intro hnd
        exact ihk (hset ▸ dictKeys_nodup_dictSet genes g a hnd)
      · intro hnd
        exact ihv (hset ▸ dictValues_nodup_dictSet genes g a hnd hfresh)
      · intro g2 hsome
        exact ihmono g2 (hset ▸ dictGet_isSome_dictSet genes g g2 a hsome)
      · intro p hp
        rcases List.mem_cons.mp hp with hhd | htl
        · subst hhd
          refine ihmono g ?_
          rw [hset, dictGet_dictSet_self]
          rfl
        · exact ihall p htl

/-- The outer retry loop of `generate_random_parent` keeps the pass invariants
and only returns a candidate accepted by `can_survive()`. -/
theorem generate_random_parent_aux {G A : Type} [DecidableEq G] [DecidableEq A]
    (cs : List (G × A) → Bool) (pool : List (G × List A)) (o : Nat → Nat) :
    ∀ (fuel k : Nat) (genes r : List (G × A)) (k2 : Nat),
      generate_random_parent cs pool o fuel k genes = some (r, k2) →
      (dictKeys genes).Nodup → (dictValues genes).Nodup →
      (dictKeys r).Nodup ∧ (dictValues r).Nodup
        ∧ (∀ p ∈ pool, (dictGet r p.1).isSome) ∧ cs r = true
  | 0, _, _, _, _, h => by simp [generate_random_parent] at h
  | fuel + 1, k, genes, r, k2, h => by
    intro hk hv
    rw [generate_random_parent] at h
    split at h
    · exact absurd h (by simp)
    · rename_i genes1 k1 hpass
      obtain ⟨ihk, ihv, _, ihall⟩ :=
        assign_all_spec o pool fuel k genes genes1 k1 hpass
      by_cases hcs : cs genes1 = true
      · rw [if_pos hcs] at h
        injection h with h1
        injection h1 with h2 h3
        subst h2
        exact ⟨ihk hk, ihv hv, ihall, hcs⟩
      · rw [if_neg hcs] at h
        exact generate_random_parent_aux cs pool o fuel k1 genes1 r k2 h (ihk hk) (ihv hv)

/-- C2: for every gene pool, whenever `generate_random_parent()` returns, the
returned candidate has one allele assigned to every declared gene (its key list
has no duplicates, so exactly one), no allele value occurs for two different
genes of the candidate, and `can_survive()` is true for it. -/
theorem generate_random_parent_spec {G A : Type} [DecidableEq G] [DecidableEq A]
    (cs : List (G × A) → Bool) (pool : List (G × List A)) (o : Nat → Nat)
    (fuel k : Nat) (r : List (G × A)) (k2 : Nat)
    (hpool : ∀ p ∈ pool, p.2 ≠ [])
    (hr : generate_random_parent cs pool o fuel k [] = some (r, k2)) :
    (dictKeys r).Nodup
    ∧ (∀ g ∈ dictKeys pool, (dictGet r g).isSome)
    ∧ (dictValues r).Nodup
    ∧ cs r = true := by
  obtain ⟨h1, h2, h3, h4⟩ :=
    generate_random_parent_aux cs pool o fuel k [] r k2 hr (by simp [dictKeys]) (by
      simp [dictValues])
  refine ⟨h1, ?_, h2, h4⟩
  intro g hg
  obtain ⟨p, hp, hpg⟩ := List.mem_map.mp hg
  exact hpg ▸ h3 p hp

theorem generate_random_parent_spec_witness :
    (∀ p ∈ ([(0, [1]), (1, [2])] : List (ℕ × List ℕ)), p.2 ≠ [])
    ∧ ((dictKeys ([(0, 1), (1, 2)] : List (ℕ × ℕ))).Nodup
        ∧ (∀ g ∈ dictKeys ([(0, [1]), (1, [2])] : List (ℕ × List ℕ)),
            (dictGet ([(0, 1), (1, 2)] : List (ℕ × ℕ)) g).isSome)
        ∧ (dictValues ([(0, 1), (1, 2)] : List (ℕ × ℕ))).Nodup
        ∧ (fun _ : List (ℕ × ℕ) => true) [(0, 1), (1, 2)] = true) :=
  ⟨by decide, generate_random_parent_spec (fun _ => true) [(0, [1]), (1, [2])]
    (fun _ => 0) 3 0 [(0, 1), (1, 2)] 2 (by decide) (by decide)⟩

/-! ### `Evolve.mutate` (C5) -/

/-- The inner `while True:` loop of one swap of `Evolve.mutate`: draw a random
gene from the pool's key list, then a random allele from that gene's list,
retrying until the allele is not already among the candidate's current values;
then overwrite that gene's entry.  Two draws are consumed per attempt. -/
def mutate_pick {G A : Type} [DecidableEq G] [DecidableEq A] (pool : List (G × List A))
    (o : Nat → Nat) : Nat → Nat → List (G × A) → Option (List (G × A) × Nat)
  | 0, _, _ => none
  | fuel + 1, k, genes =>
    match pychoice (dictKeys pool) (o k) with
    | none => none
    | some g =>
      match dictGet pool g with
      | none => none
      | some al =>
        match pychoice al (o (k + 1)) with
        | none => none
        | some a =>
          if a ∈ dictValues genes then mutate_pick pool o fuel (k + 2) genes
          else some (dictSet genes g a, k + 2)

/-- The `for i in range(swap):` loop of `Evolve.mutate`. -/
def mutate_swaps {G A : Type} [DecidableEq G] [DecidableEq A] (pool : List (G × List A))
    (o : Nat → Nat) : Nat → Nat → Nat → List (G × A) → Option (List (G × A) × Nat)
  | 0, _, k, genes => some (genes, k)
  | s + 1, fuel, k, genes =>
    match mutate_pick pool o fuel k genes with
    | none => none
    | some (genes1, k1) => mutate_swaps pool o s fuel k1 genes1

/-- `Evolve.mutate(evolvable, n1, n2)`: `swap = random.randint(n1, n2)` (a
uniform draw from the closed range, realised from the oracle as
`n1 + draw % (n2 + 1 - n1)`), then `swap` successive swaps on the candidate's
mapping. -/
def mutate {G A : Type} [DecidableEq G] [DecidableEq A] (pool : List (G × List A))
    (o : Nat → Nat) (k fuel : Nat) (genes : List (G × A)) (n1 n2 : Nat) :
    Option (List (G × A)) :=
  (mutate_swaps pool o (n1 + o k % (n2 + 1 - n1)) fuel (k + 1) genes).map Prod.fst

/-- The genes whose binding differs between two candidate states (a gene with a
binding on one side only also counts as differing). -/
def changed_genes {G A : Type} [DecidableEq G] [DecidableEq A]
    (before after : List (G × A)) : List G :=
  ((dictKeys before ++ dictKeys after).dedup).filter
    (fun g => decide (dictGet before g ≠ dictGet after g))

/-- A successful swap overwrites exactly one gene with a value that was fresh
at the moment of assignment. -/
theorem mutate_pick_spec {G A : Type} [DecidableEq G] [DecidableEq A]
    (pool : List (G × List A)) (o : Nat → Nat) :
    ∀ (fuel k : Nat) (genes genes2 : List (G × A)) (k2 : Nat),
      mutate_pick pool o fuel k genes = some (genes2, k2) →
      ∃ g a, a ∉ dictValues genes ∧ genes2 = dictSet genes g a
  | 0, _, _, _, _, h => by simp [mutate_pick] at h
  | fuel + 1, k, genes, genes2, k2, h => by
    rw [mutate_pick] at h
    split at h
    · exact absurd h (by simp)
    · rename_i g hg
      split at h
      · exact absurd h (by simp)
      · rename_i al hal
        split at h
        · exact absurd h (by simp)
        · rename_i a ha
          by_cases hmem : a ∈ dictValues genes
          · rw [if_pos hmem] at h
            exact mutate_pick_spec pool o fuel (k + 2) genes genes2 k2 h
          · rw [if_neg hmem] at h
            injection h with h1
            injection h1 with h2 h3
            exact ⟨g, a, hmem, h2.symm⟩

/-- `s` successful swaps change at most `s` gene bindings and keep the values
duplicate-free. -/
theorem mutate_swaps_spec {G A : Type} [DecidableEq G] [DecidableEq A]
    (pool : List (G × List A)) (o : Nat → Nat) :
    ∀ (s fuel k : Nat) (genes genes2 : List (G × A)) (k2 : Nat),
      mutate_swaps pool o s fuel k genes = some (genes2, k2) →
      ∃ S : List G, S.length ≤ s
        ∧ (∀ g, g ∉ S → dictGet genes g = dictGet genes2 g)
        ∧ ((dictValues genes).Nodup → (dictValues genes2).Nodup)
  | 0, fuel, k, genes, genes2, k2, h => by
    rw [mutate_swaps] at h
    injection h with h1
    injection h1 with h2 h3
    subst h2
    exact ⟨[], by simp, fun _ _ => rfl, id⟩
  | s + 1, fuel, k, genes, genes2, k2, h => by
    rw [mutate_swaps] at h
    split at h
    · exact absurd h (by simp)
    · rename_i genes1 k1 hpick
      obtain ⟨g, a, hfresh, hset⟩ := mutate_pick_spec pool o fuel k genes genes1 k1 hpick
      obtain ⟨S1, hlen, hout, hnd⟩ := mutate_swaps_spec pool o s fuel k1 genes1 genes2 k2 h
      refine ⟨g :: S1, Nat.succ_le_succ hlen, ?_, ?_⟩
      · intro g2 hg2
        have hg2g : g2 ≠ g := fun hc => hg2 (hc ▸ List.mem_cons_self _ _)
        have hg2S : g2 ∉ S1 := fun hc => hg2 (List.mem_cons_of_mem _ hc)
        calc dictGet genes g2 = dictGet genes1 g2 := by
              rw [hset, dictGet_dictSet_ne genes g g2 a hg2g]
          _ = dictGet genes2 g2 := hout g2 hg2S
      · intro hnodup
        exact hnd (hset ▸ dictValues_nodup_dictSet genes g a hnodup hfresh)

/-- C5 counterexample: `mutate(c, 1, 2)` can draw two swaps that hit the same
gene, the second restoring the original allele (its value became fresh again
after the first swap), so a successful `mutate` can leave *zero* entries
changed — the claim's lower bound of one changed entry is wrong. -/
theorem mutate_zero_change_counterexample :
    mutate [(0, [10, 11]), (1, [20])] (fun k => if k = 0 ∨ k = 2 then 1 else 0) 0 5
        [(0, 10), (1, 20)] 1 2 = some [(0, 10), (1, 20)]
    ∧ ¬(1 ≤ (changed_genes ([(0, 10), (1, 20)] : List (ℕ × ℕ)) [(0, 10), (1, 20)]).length) := by
  constructor
  · decide
  · decide

/-- C5 (amended): for every candidate whose mapping has no duplicate allele
values and every gene pool, whenever `mutate(c, 1, 2)` returns, *at most* two
of the candidate's gene bindings differ from their values before the call
(zero changes are possible when the second swap restores the first), and the
mapping contains no duplicate allele value afterwards. -/
theorem mutate_spec {G A : Type} [DecidableEq G] [DecidableEq A]
    (pool : List (G × List A)) (genes : List (G × A)) (o : Nat → Nat) (k fuel : Nat)
    (r : List (G × A))
    (hpool : pool ≠ []) (hnd : (dictValues genes).Nodup)
    (hr : mutate pool o k fuel genes 1 2 = some r) :
    (∃ S : List G, S.length ≤ 2 ∧ ∀ g, g ∉ S → dictGet genes g = dictGet r g)
    ∧ (dictValues r).Nodup := by
  unfold mutate at hr
  cases hms : mutate_swaps pool o (1 + o k % (2 + 1 - 1)) fuel (k + 1) genes with
  | none =>
    rw [hms] at hr
    exact absurd hr (by simp)
  | some pr =>
    rw [hms] at hr
    have hrr : r = pr.1 := by
      have h1 : pr.1 = r := by simpa using hr
      exact h1.symm
    obtain ⟨S, hlen, hout, hnodup⟩ :=
      mutate_swaps_spec pool o (1 + o k % (2 + 1 - 1)) fuel (k + 1) genes pr.1 pr.2 (by
        rw [hms])
    have hs2 : 1 + o k % (2 + 1 - 1) ≤ 2 := by
      have : o k % 2 < 2 := Nat.mod_lt _ (by norm_num)
      omega
    subst hrr
    exact ⟨⟨S, le_trans hlen hs2, hout⟩, hnodup hnd⟩

theorem mutate_spec_witness :
    (([(0, [10, 11]), (1, [20])] : List (ℕ × List ℕ)) ≠ []
      ∧ (dictValues ([(0, 10), (1, 20)] : List (ℕ × ℕ))).Nodup)
    ∧ ((∃ S : List ℕ, S.length ≤ 2 ∧ ∀ g, g ∉ S →
          dictGet ([(0, 10), (1, 20)] : List (ℕ × ℕ)) g
            = dictGet ([(0, 10), (1, 20)] : List (ℕ × ℕ)) g)
        ∧ (dictValues ([(0, 10), (1, 20)] : List (ℕ × ℕ))).Nodup) :=
  ⟨⟨by decide, by decide⟩,
    mutate_spec [(0, [10, 11]), (1, [20])] [(0, 10), (1, 20)]
      (fun k => if k = 0 ∨ k = 2 then 1 else 0) 0 5 [(0, 10), (1, 20)]
      (by decide) (by decide) (by decide)⟩

/-! ### `Evolve.cross_over` (C1) -/

/-- A call to the standard library's `random.random` with `nargs` positional
arguments: `evolve.py` begins with `import random` (the Python standard
library module, not `numpy.random`), and stdlib `random.random()` accepts no
arguments, so a call with any argument raises
`TypeError: random() takes no arguments`, modelled as `none`; with no argument
it returns the external PRNG's draw. -/
def py_random_random (nargs : Nat) (draw : ℚ) : Option ℚ :=
  if nargs = 0 then some draw else none

/-- The first statement of every attempt of `Evolve.cross_over`'s
`while True:` loop is `gene_range = random.random(2)` — a numpy-style call
passed to the standard-library `random.random`, one positional argument. -/
def cross_over_gene_range (draw : ℚ) : Option ℚ := py_random_random 2 draw

/-- C1: every recombination attempt of `cross_over` executes
`gene_range = random.random(2)` first, and that call raises `TypeError`
whatever the PRNG would have drawn, so `cross_over` never draws a position
range, never builds a child and never returns: the claimed
draw/combine/mutate/retry behaviour is unreachable as coded. -/
theorem cross_over_gene_range_raises : ∀ draw : ℚ, cross_over_gene_range draw = none :=
  fun _ => rfl

/-! ### `Evolve.run` (C9, C10) -/

/-- The candidates `Evolve` manipulates through `run`: each is its gene→allele
mapping (the external fitness/survivability/uniqueness capabilities are passed
as functions). -/
structure Evolve (G A : Type) where
  gene_pool : List (G × List A)
  population : List (List (G × A))
  best : List (List (G × A))

/-- Outcome of a `run` call: `valueError s` is the `ValueError` raised by the
argument-consistency check (carrying the engine state at the moment of the
raise, which the check has not touched), `ok s` is normal completion, and
`stuck` stands for a run that cannot complete normally (fuel exhaustion of a
rejection-sampling loop, or the `TypeError` every `cross_over` call raises,
see `cross_over_gene_range_raises`). -/
inductive RunResult (σ : Type) where
  | valueError : σ → RunResult σ
  | ok : σ → RunResult σ
  | stuck : RunResult σ

/-- Python truthiness of the `cb_every` argument (an optional integer):
`None` and `0` are falsy, every other integer is truthy. -/
def truthy_int : Option Int → Bool
  | none => false
  | some n => n != 0

/-- `[self.generate_random_parent() for _ in range(n_children)]`: the seeding
comprehension, threading the draw counter through the successive candidates. -/
def gen_parents {G A : Type} [DecidableEq G] [DecidableEq A]
    (cs : List (G × A) → Bool) (pool : List (G × List A)) (o : Nat → Nat) :
    Nat → Nat → Nat → Option (List (List (G × A)) × Nat)
  | 0, _, k => some ([], k)
  | m + 1, fuel, k =>
    match generate_random_parent cs pool o fuel k [] with
    | none => none
    | some (p, k1) =>
      match gen_parents cs pool o m fuel k1 with
      | none => none
      | some (ps, k2) => some (p :: ps, k2)

/-- The `for i in xrange(n):` generation loop of `Evolve.run`.  Each iteration
calls `self.cross_over(parents)` to build the next population, and every
`cross_over` call raises `TypeError` on its first statement
(`cross_over_gene_range_raises`), so an iteration never completes: with one or
more generations requested the loop is `stuck`; with zero it returns the
engine unchanged. -/
def run_loop {G A : Type} (e : Evolve G A) (n_best : Nat) : Nat → RunResult (Evolve G A)
  | 0 => .ok e
  | _ + 1 => .stuck

/-- `Evolve.run(n, n_best, n_children, cb_every, cb)`: first the
argument-consistency check (`any([cb, cb_every]) and not all([cb, cb_every])`
raises `ValueError` — it tests Python truthiness, so `cb_every=0` counts as
absent); then, if the population is empty, seed it with `n_children` random
parents and initialise the archive with `set_best()` — the *default*
`n_best=5`, not the `n_best` argument; finally the generation loop.  `cb` is
`True` when a callback object was supplied (function objects are always
truthy). -/
def run {G A : Type} [DecidableEq G] [DecidableEq A]
    (cs : List (G × A) → Bool) (fitness_level : List (G × A) → Int)
    (unique : List (G × A) → Nat) (e : Evolve G A) (n n_best n_children : Nat)
    (cb : Bool) (cb_every : Option Int) (o : Nat → Nat) (k fuel : Nat) :
    RunResult (Evolve G A) :=
  if (cb || truthy_int cb_every) && !(cb && truthy_int cb_every) then .valueError e
  else
    match (if e.population.isEmpty then
        match gen_parents cs e.gene_pool o n_children fuel k with
        | none => none
        | some (ps, _) =>
          some { e with population := ps, best := set_best fitness_level unique e.best ps 5 }
      else some e) with
    | none => .stuck
    | some e1 => run_loop e1 n_best n

/-- C9: calling `run` with a callback supplied and `cb_every = 0` raises
`ValueError` before any generation runs, even though both arguments were
supplied — the check tests truthiness, and `0` is falsy — and the engine state
carried by the raise is the untouched input state. -/
theorem run_cb_every_zero_value_error {G A : Type} [DecidableEq G] [DecidableEq A]
    (cs : List (G × A) → Bool) (fitness_level : List (G × A) → Int)
    (unique : List (G × A) → Nat) (e : Evolve G A) (n n_best n_children : Nat)
    (o : Nat → Nat) (k fuel : Nat) :
    run cs fitness_level unique e n n_best n_children true (some 0) o k fuel
      = RunResult.valueError e := rfl

/-- C10: when `run` is called with an empty population, the archive produced by
the initial seeding step is truncated by `set_best()`'s *default* bound of 5,
regardless of the `n_best` argument passed to `run` (which only the generation
loop would use): with zero generations the run's result is identical for any
two `n_best` values, and on normal completion the archive has at most 5
entries however large `n_best` is. -/
theorem run_seeding_uses_default_n_best {G A : Type} [DecidableEq G] [DecidableEq A]
    (cs : List (G × A) → Bool) (fitness_level : List (G × A) → Int)
    (unique : List (G × A) → Nat) (e : Evolve G A) (nb1 nb2 n_children : Nat)
    (o : Nat → Nat) (k fuel : Nat) (hpop : e.population = []) :
    run cs fitness_level unique e 0 nb1 n_children false none o k fuel
      = run cs fitness_level unique e 0 nb2 n_children false none o k fuel
    ∧ ∀ e1, run cs fitness_level unique e 0 nb1 n_children false none o k fuel
        = RunResult.ok e1 → e1.best.length ≤ 5 := by
  have hred : ∀ nb : Nat, run cs fitness_level unique e 0 nb n_children false none o k fuel
      = match gen_parents cs e.gene_pool o n_children fuel k with
        | none => RunResult.stuck
        | some (ps, _) =>
            RunResult.ok
              { gene_pool := e.gene_pool, population := ps,
                best := set_best fitness_level unique e.best ps 5 } := by
    intro nb
    unfold run
    rw [hpop]
    cases hgen : gen_parents cs e.gene_pool o n_children fuel k with
    | none => rfl
    | some pr =>
      cases pr with
      | mk ps k2 => rfl
  constructor
  · rw [hred nb1, hred nb2]
  · intro e1 h
    rw [hred nb1] at h
    cases hgen : gen_parents cs e.gene_pool o n_children fuel k with
    | none =>
      rw [hgen] at h
      exact RunResult.noConfusion h
    | some pr =>
      cases pr with
      | mk ps k2 =>
        rw [hgen] at h
        injection h with h1
        rw [h1.symm]
        unfold set_best
        exact List.length_take_le _ _

/-- The engine state used to witness `run_seeding_uses_default_n_best`. -/
def evolve0 : Evolve ℕ ℕ := { gene_pool := [(0, [1])], population := [], best := [] }

theorem run_seeding_uses_default_n_best_witness :
    evolve0.population = []
    ∧ (run (fun _ => true) (fun _ => 0) (fun _ => 0) evolve0 0 100 1 false none
          (fun _ => 0) 0 3
        = run (fun _ => true) (fun _ => 0) (fun _ => 0) evolve0 0 7 1 false none
            (fun _ => 0) 0 3
      ∧ ∀ e1, run (fun _ => true) (fun _ => 0) (fun _ => 0) evolve0 0 100 1 false none
            (fun _ => 0) 0 3 = RunResult.ok e1 → e1.best.length ≤ 5) :=
  ⟨rfl, run_seeding_uses_default_n_best (fun _ => true) (fun _ => 0) (fun _ => 0)
    evolve0 100 7 1 (fun _ => 0) 0 3 rfl⟩
